import Mathlib

/-!
Verification of the soft-serve provider core: the SSH output parser
(package ssh, parser file), the SSH client command construction
(package ssh, client file), and the resource reconcilers
(internal/resource: repository, user, server_settings, collaborator).

Commands issued by reconcilers are modelled as an inductive type whose
constructors correspond one-to-one to the Client methods the Go code calls.
Strings are modelled at the character-list level; the Go standard-library
string helpers used by the source (strings.Split, TrimSpace, Index,
Contains, HasPrefix, HasSuffix, TrimSuffix, Fields) are reimplemented
faithfully below over List Char.
-/

namespace SoftServe

/-- Whitespace test matching Go unicode.IsSpace: the ASCII space characters
plus the Unicode White_Space code points. -/
def goIsSpace (c : Char) : Bool :=
  let n := c.toNat
  n = 9 ∨ n = 10 ∨ n = 11 ∨ n = 12 ∨ n = 13 ∨ n = 32 ∨
  n = 0x85 ∨ n = 0xA0 ∨ n = 0x1680 ∨ (0x2000 ≤ n ∧ n ≤ 0x200A) ∨
  n = 0x2028 ∨ n = 0x2029 ∨ n = 0x202F ∨ n = 0x205F ∨ n = 0x3000

/-- Drop leading whitespace, as the left half of Go strings.TrimSpace. -/
def trimLeftChars : List Char → List Char
  | [] => []
  | c :: cs => if goIsSpace c then trimLeftChars cs else c :: cs

/-- Drop trailing whitespace, as the right half of Go strings.TrimSpace. -/
def trimRightChars (l : List Char) : List Char :=
  (trimLeftChars l.reverse).reverse

/-- Go strings.TrimSpace on a character list. -/
def goTrimSpace (l : List Char) : List Char :=
  trimLeftChars (trimRightChars l)

/-- Go strings.Split(s, sep) for a single-character separator, accumulator
form: cur holds the current segment reversed. -/
def splitCharAux (sep : Char) : List Char → List Char → List (List Char)
  | [], cur => [cur.reverse]
  | c :: cs, cur =>
    if c = sep then cur.reverse :: splitCharAux sep cs []
    else splitCharAux sep cs (c :: cur)

/-- Go strings.Split(s, newline): the line decomposition every parser
function starts from. -/
def goSplitLines (l : List Char) : List (List Char) :=
  splitCharAux (Char.ofNat 10) l []

/-- Whether pre is a prefix of l, as Go strings.HasPrefix. -/
def startsWithChars : List Char → List Char → Bool
  | [], _ => true
  | _ :: _, [] => false
  | p :: ps, c :: cs => if p = c then startsWithChars ps cs else false

/-- Index of the first occurrence of needle in hay, as Go strings.Index
(none when absent). -/
def indexOfChars (hay needle : List Char) : Option Nat :=
  if startsWithChars needle hay then some 0
  else
    match hay with
    | [] => none
    | _ :: t => (indexOfChars t needle).map (· + 1)

/-- Whether needle occurs in hay, as Go strings.Contains. -/
def containsChars (hay needle : List Char) : Bool :=
  (indexOfChars hay needle).isSome

/-- Go strings.Fields, accumulator form: cur holds the current token
reversed. Splits around runs of whitespace, producing no empty tokens. -/
def fieldsAux : List Char → List Char → List (List Char)
  | [], cur => if cur = [] then [] else [cur.reverse]
  | c :: cs, cur =>
    if goIsSpace c then
      if cur = [] then fieldsAux cs [] else cur.reverse :: fieldsAux cs []
    else fieldsAux cs (c :: cur)

/-- Go strings.Fields on a character list. -/
def goFields (l : List Char) : List (List Char) :=
  fieldsAux l []

/-- The two-character separator literal used by parseKeyValue. -/
def colonSpace : List Char := [':', ' ']

/-- parseKeyValue from the parser file: a line with a colon-space separator
yields the trimmed text on each side; otherwise a line whose trimmed form
ends in a colon yields that text without the colon and an empty value;
any other line yields nothing. -/
def parseKeyValue (line : List Char) : Option (String × String) :=
  match indexOfChars line colonSpace with
  | some idx =>
      some (String.mk (goTrimSpace (line.take idx)),
            String.mk (goTrimSpace (line.drop (idx + 2))))
  | none =>
      let t := goTrimSpace line
      if t.getLast? = some ':' then some (String.mk t.dropLast, "")
      else none

/-- parseKeyValues from the parser file: every line that parseKeyValue
accepts contributes one pair, in line order. -/
def parseKeyValues (output : List Char) : List (String × String) :=
  (goSplitLines output).filterMap parseKeyValue

/-- RepoInfoResult from the parser file. -/
structure RepoInfoResult where
  ProjectName : String
  Repository : String
  Description : String
  Private : Bool
  Hidden : Bool
  Mirror : Bool
  Owner : String
  deriving DecidableEq, Repr

/-- One iteration of the ParseRepoInfo switch over a parsed pair. -/
def stepRepoKV (kv : String × String) (r : RepoInfoResult) : RepoInfoResult :=
  if kv.1 = "Project Name" then { r with ProjectName := kv.2 }
  else if kv.1 = "Repository" then { r with Repository := kv.2 }
  else if kv.1 = "Description" then { r with Description := kv.2 }
  else if kv.1 = "Private" then { r with Private := kv.2 = "true" }
  else if kv.1 = "Hidden" then { r with Hidden := kv.2 = "true" }
  else if kv.1 = "Mirror" then { r with Mirror := kv.2 = "true" }
  else if kv.1 = "Owner" then { r with Owner := kv.2 }
  else r

/-- The ParseRepoInfo loop over the parsed pairs. -/
def foldRepoKVs : List (String × String) → RepoInfoResult → RepoInfoResult
  | [], r => r
  | kv :: rest, r => foldRepoKVs rest (stepRepoKV kv r)

/-- The zero value ParseRepoInfo starts from. -/
def emptyRepoInfo : RepoInfoResult :=
  ⟨"", "", "", false, false, false, ""⟩

/-- Error text of ParseRepoInfo for a missing Repository field. -/
def repoInfoErrMsg : String :=
  "failed to parse repo info: missing Repository field"

/-- ParseRepoInfo from the parser file: fold the parsed pairs into the
record, then fail when the Repository field is still empty. -/
def ParseRepoInfo (output : String) : Except String RepoInfoResult :=
  let r := foldRepoKVs (parseKeyValues output.data) emptyRepoInfo
  if r.Repository = "" then Except.error repoInfoErrMsg else Except.ok r

/-- Decidable equality for Except results, needed to evaluate parser
outcomes on concrete inputs. -/
instance exceptDecEq {e a : Type} [DecidableEq e] [DecidableEq a] : DecidableEq (Except e a) := fun x y =>
  match x, y with
  | Except.ok u, Except.ok v => if h : u = v then isTrue (by rw [h]) else isFalse (by intro hc; cases hc; exact h rfl)
  | Except.error u, Except.error v => if h : u = v then isTrue (by rw [h]) else isFalse (by intro hc; cases hc; exact h rfl)
  | Except.ok _, Except.error _ => isFalse (by intro hc; cases hc)
  | Except.error _, Except.ok _ => isFalse (by intro hc; cases hc)

/-- UserInfoResult from the parser file. Key order is the order in which
the indented lines were appended. -/
structure UserInfoResult where
  Username : String
  Admin : Bool
  PublicKeys : List String
  deriving DecidableEq, Repr

/-- One key-value line of the ParseUserInfo loop, executed when the loop is
not collecting public keys (or after falling through out of that section).
Returns the updated record and the new value of the inPublicKeys flag:
the switch turns it on exactly for the Public keys label. -/
def stepUserKV (line : List Char) (r : UserInfoResult) : UserInfoResult × Bool :=
  match parseKeyValue line with
  | none => (r, false)
  | some kv =>
    if kv.1 = "Username" then ({ r with Username := kv.2 }, false)
    else if kv.1 = "Admin" then ({ r with Admin := kv.2 = "true" }, false)
    else if kv.1 = "Public keys" then (r, true)
    else (r, false)

/-- The two-space indentation prefix the public-key section test uses. -/
def twoSpaces : List Char := [Char.ofNat 32, Char.ofNat 32]

/-- The ParseUserInfo line loop. While inPublicKeys is set, a line whose
trimmed form is empty is skipped, a line that is not indented by two spaces
and contains colon-space falls through to key-value handling (clearing the
flag first, which the switch may set again), and any other line has its
trimmed form appended to the collected keys. -/
def userLoop : List (List Char) → Bool → UserInfoResult → UserInfoResult
  | [], _, r => r
  | line :: rest, inPK, r =>
    if inPK then
      let t := goTrimSpace line
      if t = [] then userLoop rest true r
      else if startsWithChars twoSpaces line = false ∧ containsChars line colonSpace then
        let p := stepUserKV line r
        userLoop rest p.2 p.1
      else userLoop rest true { r with PublicKeys := r.PublicKeys ++ [String.mk t] }
    else
      let p := stepUserKV line r
      userLoop rest p.2 p.1

/-- The scan phase of ParseUserInfo: run the line loop from the zero value
with the section flag off. -/
def userScanOf (output : String) : UserInfoResult :=
  userLoop (goSplitLines output.data) false ⟨"", false, []⟩

/-- Error text of ParseUserInfo for a missing Username field. -/
def userInfoErrMsg : String :=
  "failed to parse user info: missing Username field"

/-- ParseUserInfo from the parser file: scan the lines, then fail when the
Username field is still empty. -/
def ParseUserInfo (output : String) : Except String UserInfoResult :=
  let r := userScanOf output
  if r.Username = "" then Except.error userInfoErrMsg else Except.ok r

/-- CollabEntry from the parser file. -/
structure CollabEntry where
  Username : String
  AccessLevel : String
  deriving DecidableEq, Repr

/-- The per-line step of the ParseCollabList loop: trim the line, skip it
when empty, otherwise tokenize and take the first token as the username and
the second, when present, as the access level. -/
def collabLineEntry (line : List Char) : Option CollabEntry :=
  let t := goTrimSpace line
  if t = [] then none
  else
    match goFields t with
    | [] => none
    | u :: rest => some ⟨String.mk u, String.mk (rest.headD [])⟩

/-- ParseCollabList from the parser file: empty trimmed input returns the
empty list at once; otherwise each line contributes via collabLineEntry.
Both Go return statements carry a nil error, modelled by always returning
ok. -/
def ParseCollabList (output : String) : Except String (List CollabEntry) :=
  if goTrimSpace output.data = [] then Except.ok []
  else Except.ok ((goSplitLines output.data).filterMap collabLineEntry)

/-- Quoting of a free-form value as the client file does with the %q verb:
wrap in double quotes, escaping backslashes and double quotes. Control
characters receive no further escaping in this model; no claim depends on
them. -/
def goQuote (s : String) : String :=
  String.mk ('"' :: (s.data.flatMap fun c =>
    if c = '"' ∨ c = '\\' then ['\\', c] else [c]) ++ ['"'])

/-- RepoCreateOpts from the client file. -/
structure RepoCreateOpts where
  Description : String
  ProjectName : String
  Private : Bool
  deriving DecidableEq, Repr

/-- The command string RepoCreate builds: the -d, -n and -p flags are
appended only when the corresponding option is set (non-empty string or
true flag). -/
def repoCreateCmdStr (name : String) (opts : RepoCreateOpts) : String :=
  "repo create " ++ name
    ++ (if opts.Description ≠ "" then " -d " ++ goQuote opts.Description else "")
    ++ (if opts.ProjectName ≠ "" then " -n " ++ goQuote opts.ProjectName else "")
    ++ (if opts.Private then " -p" else "")

/-- One administrative command issued through the client, one constructor
per Client method the reconcilers call. Query constructors carry a Q
suffix; the rest are mutations. -/
inductive AdminCmd where
  | repoCreate (name : String) (opts : RepoCreateOpts)
  | repoSetDescription (name text : String)
  | repoSetProjectName (name text : String)
  | repoSetPrivate (name : String) (v : Bool)
  | repoSetHidden (name : String) (v : Bool)
  | repoInfoQ (name : String)
  | userSetAdmin (username : String) (v : Bool)
  | userAddPubkey (username key : String)
  | userRemovePubkey (username key : String)
  | userInfoQ (username : String)
  deriving DecidableEq, Repr

/-- RepositoryResourceModel from the repository reconciler. The two
optional computed string attributes are none when null (the unknown state
behaves like null for the purposes modelled here); the boolean attributes
carry schema defaults and are modelled as plain booleans. -/
structure RepositoryResourceModel where
  Name : String
  Description : Option String
  ProjectName : Option String
  Private : Bool
  Hidden : Bool
  deriving DecidableEq, Repr

/-- UserResourceModel from the user reconciler: the public-key set
attribute is nullable, and its elements are kept in the stored order. -/
structure UserResourceModel where
  Username : String
  Admin : Bool
  PublicKeys : Option (List String)
  deriving DecidableEq, Repr

/-- The command trace of RepositoryResource.Update on the happy path: one
set command per field whose planned value differs from the recorded state,
in source order, followed by the verifying repo info query of
readRepoState. A null planned string is sent as the empty string. -/
def repoUpdateTrace (plan state : RepositoryResourceModel) : List AdminCmd :=
  (if plan.Description ≠ state.Description then
     [AdminCmd.repoSetDescription plan.Name (plan.Description.getD "")] else [])
  ++ (if plan.ProjectName ≠ state.ProjectName then
     [AdminCmd.repoSetProjectName plan.Name (plan.ProjectName.getD "")] else [])
  ++ (if plan.Private ≠ state.Private then
     [AdminCmd.repoSetPrivate plan.Name plan.Private] else [])
  ++ (if plan.Hidden ≠ state.Hidden then
     [AdminCmd.repoSetHidden plan.Name plan.Hidden] else [])
  ++ [AdminCmd.repoInfoQ plan.Name]

/-- The options RepositoryResource.Create builds from the plan: null
description and project name stay at the empty-string zero value. -/
def mkRepoCreateOpts (plan : RepositoryResourceModel) : RepoCreateOpts :=
  ⟨plan.Description.getD "", plan.ProjectName.getD "", plan.Private⟩

/-- The command trace of RepositoryResource.Create on the happy path: the
create command, a hidden follow-up only when the planned hidden flag is
true, then the verifying repo info query. -/
def repoCreateTrace (plan : RepositoryResourceModel) : List AdminCmd :=
  [AdminCmd.repoCreate plan.Name (mkRepoCreateOpts plan)]
  ++ (if plan.Hidden then [AdminCmd.repoSetHidden plan.Name true] else [])
  ++ [AdminCmd.repoInfoQ plan.Name]

/-- toStringSet from the user reconciler builds a string-keyed map; its key
set is modelled as the deduplicated list keeping first occurrences, with
seen accumulating the keys already emitted. -/
def dedupAux (seen : List String) : List String → List String
  | [] => []
  | x :: xs => if x ∈ seen then dedupAux seen xs else x :: dedupAux (x :: seen) xs

/-- The key list of toStringSet applied to a slice. -/
def toStringSetList (l : List String) : List String :=
  dedupAux [] l

/-- The public-key diff commands of UserResource.Update: one remove per
key in the recorded set but not the planned set, then one add per key in
the planned set but not the recorded set. Go map iteration order is not
specified; this model fixes the first-occurrence order of each slice. -/
def userKeyDiffCommands (username : String) (planKeys stateKeys : List String) : List AdminCmd :=
  let planSet := toStringSetList planKeys
  let stateSet := toStringSetList stateKeys
  (stateSet.filter fun k => decide (k ∉ planSet)).map (AdminCmd.userRemovePubkey username)
  ++ (planSet.filter fun k => decide (k ∉ stateSet)).map (AdminCmd.userAddPubkey username)

/-- The command trace of UserResource.Update on the happy path: a set-admin
command when the admin flag differs, the public-key diff when the key sets
attribute differs, then the verifying user info query of readUserState. A
null key set contributes no elements. -/
def userUpdateTrace (plan state : UserResourceModel) : List AdminCmd :=
  (if plan.Admin ≠ state.Admin then
     [AdminCmd.userSetAdmin plan.Username plan.Admin] else [])
  ++ (if plan.PublicKeys ≠ state.PublicKeys then
     userKeyDiffCommands plan.Username (plan.PublicKeys.getD []) (state.PublicKeys.getD []) else [])
  ++ [AdminCmd.userInfoQ plan.Username]

/-- ServerSettingsResourceModel from the server-settings reconciler. -/
structure ServerSettingsResourceModel where
  AllowKeyless : Option Bool
  AnonAccess : Option String
  deriving DecidableEq, Repr

/-- The command trace of ServerSettingsResource.Delete: the method body is
empty, so no command is issued whatever the recorded state. -/
def serverSettingsDeleteTrace (_state : ServerSettingsResourceModel) : List AdminCmd :=
  []

/-- The diagnostics of ServerSettingsResource.Delete: the empty method body
adds none, so Delete always succeeds. -/
def serverSettingsDeleteDiags (_state : ServerSettingsResourceModel) : List String :=
  []

/-- Outcome of readCollabState from the collaborator reconciler. -/
inductive CollabReadResult where
  | found (accessLevel : String)
  | notFound
  | listError
  deriving DecidableEq, Repr

/-- readCollabState from the collaborator reconciler, applied to the result
of the collaborator listing: a listing failure is reported as a listing
error; otherwise the first entry with the requested username determines
the state, with an empty listed access level replaced by read-write, and
a missing entry is reported as not found. -/
def readCollabState (username : String) (listing : Except String (List CollabEntry)) : CollabReadResult :=
  match listing with
  | Except.error _ => CollabReadResult.listError
  | Except.ok entries =>
    match entries.find? (fun c => c.Username = username) with
    | some c =>
        CollabReadResult.found (if c.AccessLevel = "" then "read-write" else c.AccessLevel)
    | none => CollabReadResult.notFound

/-- ClientConfig from the client file (connection endpoint fields omitted:
no claim concerns them). -/
structure ClientConfig where
  PrivateKey : String
  PrivateKeyPath : String
  UseAgent : Bool
  IdentityFile : String
  deriving DecidableEq, Repr

/-- The environment NewClient runs against: outcomes of private-key
parsing, file reads, the SSH_AUTH_SOCK variable, the agent dial, and
authorized-key parsing. Parsers and reads return none on failure. -/
structure AuthWorld where
  parsePrivateKey : String → Option String
  readFile : String → Option String
  sshAuthSock : String
  dialOk : Bool
  parseAuthorizedKey : String → Option String

/-- The agent authentication method: either every agent signer is offered,
or only the one matching the marshalled key from the identity file. -/
inductive AgentAuth where
  | all
  | filtered (want : String)
  deriving DecidableEq, Repr

/-- The resolved client: an optional signer from explicit key material and
an optional agent authentication method. -/
structure ClientModel where
  signer : Option String
  agentAuth : Option AgentAuth
  deriving DecidableEq, Repr

/-- Construction failures of NewClient, one constructor per error return
site: parse failure of inline key content, read or parse failure of the
key file, read or parse failure of the identity file inside
filteredAgentAuth, and the final no-authentication-method error. -/
inductive NewClientErr where
  | parseInlineKey
  | readKeyFile (path : String)
  | parseKeyFile (path : String)
  | identityFilter (path : String)
  | noAuth
  deriving DecidableEq, Repr

/-- A file consulted during construction, tagged by the branch that read
it: the explicit key file branch or the identity-file filter. -/
inductive ReadEvent where
  | keyFile (path : String)
  | identityFile (path : String)
  deriving DecidableEq, Repr

/-- filteredAgentAuth from the client file: read the identity file, parse
the authorized key, and filter the agent to its marshalled form; either
step failing fails the construction. -/
def filteredAgentAuth (w : AuthWorld) (identityFile : String) : Option AgentAuth :=
  match w.readFile identityFile with
  | none => none
  | some bytes =>
    match w.parseAuthorizedKey bytes with
    | none => none
    | some want => some (AgentAuth.filtered want)

/-- The signer-resolution prefix of NewClient: inline key content is tried
first and, when it is empty, the key file path; a configuration with
neither leaves the signer unset. Returns the outcome and the files
consulted. -/
def signerStepRun (w : AuthWorld) (cfg : ClientConfig) : Except NewClientErr (Option String) × List ReadEvent :=
  if cfg.PrivateKey ≠ "" then
    match w.parsePrivateKey cfg.PrivateKey with
    | none => (Except.error NewClientErr.parseInlineKey, [])
    | some s => (Except.ok (some s), [])
  else if cfg.PrivateKeyPath ≠ "" then
    match w.readFile cfg.PrivateKeyPath with
    | none => (Except.error (NewClientErr.readKeyFile cfg.PrivateKeyPath),
               [ReadEvent.keyFile cfg.PrivateKeyPath])
    | some bytes =>
      match w.parsePrivateKey bytes with
      | none => (Except.error (NewClientErr.parseKeyFile cfg.PrivateKeyPath),
                 [ReadEvent.keyFile cfg.PrivateKeyPath])
      | some s => (Except.ok (some s), [ReadEvent.keyFile cfg.PrivateKeyPath])
  else (Except.ok none, [])

/-- The agent-setup step of NewClient: only attempted when the agent is
requested, the socket variable is non-empty and the dial succeeds (a
failed dial is silently skipped); a non-empty identity file routes through
filteredAgentAuth, whose failure fails the construction. -/
def agentStepRun (w : AuthWorld) (cfg : ClientConfig) : Except NewClientErr (Option AgentAuth) × List ReadEvent :=
  if cfg.UseAgent ∧ w.sshAuthSock ≠ "" ∧ w.dialOk then
    if cfg.IdentityFile ≠ "" then
      match filteredAgentAuth w cfg.IdentityFile with
      | none => (Except.error (NewClientErr.identityFilter cfg.IdentityFile),
                 [ReadEvent.identityFile cfg.IdentityFile])
      | some a => (Except.ok (some a), [ReadEvent.identityFile cfg.IdentityFile])
    else (Except.ok (some AgentAuth.all), [])
  else (Except.ok none, [])

/-- Whether a consulted file was read by the explicit key file branch. -/
def ReadEvent.isKeyFileRead : ReadEvent → Bool
  | ReadEvent.keyFile _ => true
  | ReadEvent.identityFile _ => false

/-- NewClient from the client file, returning the construction outcome and
the trace of files consulted: resolve the signer, set up the agent, and
fail last with the no-authentication-method error exactly when both are
unset. -/
def NewClientRun (w : AuthWorld) (cfg : ClientConfig) : Except NewClientErr ClientModel × List ReadEvent :=
  match signerStepRun w cfg with
  | (Except.error e, evs) => (Except.error e, evs)
  | (Except.ok signer, evs) =>
    match agentStepRun w cfg with
    | (Except.error e, evs2) => (Except.error e, evs ++ evs2)
    | (Except.ok agentAuth, evs2) =>
      if signer = none ∧ agentAuth = none then
        (Except.error NewClientErr.noAuth, evs ++ evs2)
      else (Except.ok ⟨signer, agentAuth⟩, evs ++ evs2)

/-- The last value the parsed pairs carry for a label, if any: the value
the last-writer-wins switch of ParseRepoInfo leaves in a field. -/
def lastLabelValue (kvs : List (String × String)) (label : String) : Option String :=
  (kvs.filterMap fun kv => if kv.1 = label then some kv.2 else none).getLast?

theorem foldRepoKVs_append (l₁ l₂ : List (String × String)) (r : RepoInfoResult) :
    foldRepoKVs (l₁ ++ l₂) r = foldRepoKVs l₂ (foldRepoKVs l₁ r) := by
  induction l₁ generalizing r with
  | nil => rfl
  | cons kv rest ih => simp [foldRepoKVs, ih]

theorem lastLabelValue_concat (l : List (String × String)) (kv : String × String) (label : String) :
    lastLabelValue (l ++ [kv]) label =
      if kv.1 = label then some kv.2 else lastLabelValue l label := by
  unfold lastLabelValue
  rw [List.filterMap_append]
  by_cases h : kv.1 = label
  · simp [h, List.getLast?_concat]
  · simp [h]

theorem foldRepoKVs_fields (kvs : List (String × String)) (r : RepoInfoResult) :
    foldRepoKVs kvs r =
      ⟨(lastLabelValue kvs "Project Name").getD r.ProjectName,
       (lastLabelValue kvs "Repository").getD r.Repository,
       (lastLabelValue kvs "Description").getD r.Description,
       (lastLabelValue kvs "Private").elim r.Private (fun v => v = "true"),
       (lastLabelValue kvs "Hidden").elim r.Hidden (fun v => v = "true"),
       (lastLabelValue kvs "Mirror").elim r.Mirror (fun v => v = "true"),
       (lastLabelValue kvs "Owner").getD r.Owner⟩ := by
  induction kvs using List.reverseRecOn with
  | nil => simp [foldRepoKVs, lastLabelValue]
  | append_singleton l kv ih =>
    rw [foldRepoKVs_append, ih]
    simp only [foldRepoKVs, stepRepoKV, lastLabelValue_concat]
    split_ifs with h1 h2 h3 h4 h5 h6 h7 <;> simp_all

theorem mem_dedupAux (x : String) (l : List String) : ∀ seen,
    (x ∈ dedupAux seen l ↔ (x ∈ l ∧ x ∉ seen)) := by
  induction l with
  | nil => intro seen; simp [dedupAux]
  | cons y ys ih =>
    intro seen
    by_cases h : y ∈ seen
    · simp only [dedupAux, if_pos h, ih, List.mem_cons]
      constructor
      · exact fun ⟨hm, hs⟩ => ⟨Or.inr hm, hs⟩
      · rintro ⟨hm | hm, hs⟩
        · exact absurd (hm ▸ h) hs
        · exact ⟨hm, hs⟩
    · simp only [dedupAux, if_neg h, List.mem_cons, ih]
      constructor
      · rintro (rfl | ⟨hm, hs⟩)
        · exact ⟨Or.inl rfl, h⟩
        · exact ⟨Or.inr hm, fun hx => hs (Or.inr hx)⟩
      · rintro ⟨rfl | hm, hs⟩
        · exact Or.inl rfl
        · by_cases hxy : x = y
          · exact Or.inl hxy
          · exact Or.inr ⟨hm, by simp [List.mem_cons, hxy, hs]⟩

theorem nodup_dedupAux (l : List String) : ∀ seen, (dedupAux seen l).Nodup := by
  induction l with
  | nil => intro seen; simp [dedupAux]
  | cons y ys ih =>
    intro seen
    by_cases h : y ∈ seen
    · simpa [dedupAux, h] using ih seen
    · simp only [dedupAux, if_neg h, List.nodup_cons]
      refine ⟨fun hy => ?_, ih (y :: seen)⟩
      exact ((mem_dedupAux y ys (y :: seen)).1 hy).2 (List.mem_cons_self y seen)

theorem mem_toStringSetList (x : String) (l : List String) :
    x ∈ toStringSetList l ↔ x ∈ l := by
  simp [toStringSetList, mem_dedupAux]

theorem nodup_toStringSetList (l : List String) : (toStringSetList l).Nodup :=
  nodup_dedupAux l []

/-- C1: the public-key reconciliation of UserResource.Update issues one
remove command per key in the prior-actual set only and one add command
per key in the desired set only, with every remove before every add, no
command for a key in both sets, and key comparison by plain string
equality; updating the keys from the set with A and B to the set with B
and C issues exactly the removal of A, the addition of C, and the
verifying query, leaving B untouched. -/
theorem claimC1_user_update_key_diff (u A B C : String) (adm : Bool)
    (planKeys stateKeys : List String)
    (hAB : A ≠ B) (hBC : B ≠ C) (hAC : A ≠ C) :
    (∃ rems adds : List String,
      userKeyDiffCommands u planKeys stateKeys
        = rems.map (AdminCmd.userRemovePubkey u) ++ adds.map (AdminCmd.userAddPubkey u)
      ∧ rems.Nodup ∧ adds.Nodup
      ∧ (∀ k, k ∈ rems ↔ (k ∈ stateKeys ∧ k ∉ planKeys))
      ∧ (∀ k, k ∈ adds ↔ (k ∈ planKeys ∧ k ∉ stateKeys)))
    ∧ userUpdateTrace ⟨u, adm, some [B, C]⟩ ⟨u, adm, some [A, B]⟩
        = [AdminCmd.userRemovePubkey u A, AdminCmd.userAddPubkey u C, AdminCmd.userInfoQ u] := by
  constructor
  · refine ⟨(toStringSetList stateKeys).filter (fun k => decide (k ∉ toStringSetList planKeys)),
            (toStringSetList planKeys).filter (fun k => decide (k ∉ toStringSetList stateKeys)),
            rfl, List.Nodup.filter _ (nodup_toStringSetList _),
            List.Nodup.filter _ (nodup_toStringSetList _), ?_, ?_⟩
    · intro k
      simp [List.mem_filter, mem_toStringSetList]
    · intro k
      simp [List.mem_filter, mem_toStringSetList]
  · have h1 : B ≠ A := fun h => hAB h.symm
    have h2 : C ≠ B := fun h => hBC h.symm
    have h3 : C ≠ A := fun h => hAC h.symm
    simp [userUpdateTrace, userKeyDiffCommands, toStringSetList, dedupAux,
      hAB, hBC, hAC, h1, h2, h3]

/-- C1 witness: the concrete key update from the set with A and B to the
set with B and C. -/
theorem claimC1_witness :
    userUpdateTrace ⟨"u", false, some ["B", "C"]⟩ ⟨"u", false, some ["A", "B"]⟩
      = [AdminCmd.userRemovePubkey "u" "A", AdminCmd.userAddPubkey "u" "C",
         AdminCmd.userInfoQ "u"] :=
  (claimC1_user_update_key_diff "u" "A" "B" "C" false ["B", "C"] ["A", "B"]
    (by decide) (by decide) (by decide)).2

/-- C2: Update applied to a desired state identical to the recorded prior
state issues no mutating command for either the repository reconciler or
the user reconciler; each trace is exactly the single verifying info
query. -/
theorem claimC2_update_idempotent (rm : RepositoryResourceModel) (um : UserResourceModel) :
    repoUpdateTrace rm rm = [AdminCmd.repoInfoQ rm.Name]
    ∧ userUpdateTrace um um = [AdminCmd.userInfoQ um.Username] := by
  constructor
  · simp [repoUpdateTrace]
  · simp [userUpdateTrace]

/-- C5: on Create a null description and project name leave the create
command without -d and -n flags (only the -p flag may appear), while on
Update a change of either field from a recorded value to null issues a
real clearing command carrying the empty string, followed only by the
verifying query. -/
theorem claimC5_create_update_asymmetry (name d dd p : String) (priv hid : Bool) :
    repoCreateCmdStr name (mkRepoCreateOpts ⟨name, none, none, priv, hid⟩)
      = "repo create " ++ name ++ (if priv then " -p" else "")
    ∧ repoUpdateTrace ⟨name, none, some p, priv, hid⟩ ⟨name, some d, some p, priv, hid⟩
        = [AdminCmd.repoSetDescription name "", AdminCmd.repoInfoQ name]
    ∧ repoUpdateTrace ⟨name, some dd, none, priv, hid⟩ ⟨name, some dd, some p, priv, hid⟩
        = [AdminCmd.repoSetProjectName name "", AdminCmd.repoInfoQ name] := by
  refine ⟨?_, ?_, ?_⟩
  · simp [repoCreateCmdStr, mkRepoCreateOpts]
  · simp [repoUpdateTrace]
  · simp [repoUpdateTrace]

/-- C8: ServerSettingsResource.Delete issues no remote command and adds no
error diagnostic, whatever the recorded state: only the client-side state
is forgotten. -/
theorem claimC8_settings_delete_noop (st : ServerSettingsResourceModel) :
    serverSettingsDeleteTrace st = [] ∧ serverSettingsDeleteDiags st = [] :=
  ⟨rfl, rfl⟩

theorem elim_bool_eq_getD (o : Option String) :
    (o.elim false (fun v => v = "true") : Bool) = decide ((o.getD "" = "true")) := by
  cases o <;> simp

/-- C3 counterexample: on the input with a valued Repository line followed
by a bare Repository label line, some line yields the non-empty value x
for the label Repository, yet ParseRepoInfo returns the missing-field
error, because the later empty value overwrites the earlier one. -/
theorem claimC3_counterexample :
    parseKeyValues ("Repository: x\nRepository:").data
      = [("Repository", "x"), ("Repository", "")]
    ∧ ("x" : String) ≠ ""
    ∧ ParseRepoInfo "Repository: x\nRepository:" = Except.error repoInfoErrMsg := by
  refine ⟨by decide, by decide, by decide⟩

/-- C3 amended: ParseRepoInfo returns the missing-field error exactly when
the last value any line yields for the label Repository is empty or no
line yields one, and otherwise returns the record whose every field is the
last value its label received (booleans true exactly for the literal
true); ParseUserInfo returns its missing-field error exactly when the
scanned Username field is empty and otherwise the scanned record with a
non-empty Username — neither parser ever returns a silent partial
result. -/
theorem claimC3_parser_totality (s : String) :
    ParseRepoInfo s =
      (if (lastLabelValue (parseKeyValues s.data) "Repository").getD "" = "" then
        Except.error repoInfoErrMsg
      else
        Except.ok
          ⟨(lastLabelValue (parseKeyValues s.data) "Project Name").getD "",
           (lastLabelValue (parseKeyValues s.data) "Repository").getD "",
           (lastLabelValue (parseKeyValues s.data) "Description").getD "",
           (lastLabelValue (parseKeyValues s.data) "Private").getD "" = "true",
           (lastLabelValue (parseKeyValues s.data) "Hidden").getD "" = "true",
           (lastLabelValue (parseKeyValues s.data) "Mirror").getD "" = "true",
           (lastLabelValue (parseKeyValues s.data) "Owner").getD ""⟩)
    ∧ ParseUserInfo s =
      (if (userScanOf s).Username = "" then Except.error userInfoErrMsg
       else Except.ok (userScanOf s)) := by
  constructor
  · unfold ParseRepoInfo
    rw [foldRepoKVs_fields]
    simp only [emptyRepoInfo, elim_bool_eq_getD]
  · rfl

/-- C4 counterexample: an indented key line with surrounding whitespace is
not collected verbatim; the stored key string is the trimmed form, which
differs from the line text. -/
theorem claimC4_counterexample :
    ParseUserInfo "Username: a\nPublic keys:\n  mykey " = Except.ok ⟨"a", false, ["mykey"]⟩
    ∧ ("mykey" : String) ≠ "  mykey " := by
  refine ⟨by decide, by decide⟩

/-- C4 amended: inside a Public keys section each following non-empty line
that is indented by two spaces (or lacks the colon-space separator) is
collected as one key string with its surrounding whitespace stripped, the
section ends when a non-indented line containing the colon-space separator
appears and that line is handled as an ordinary label-value line, and a
Public keys section followed by zero indented lines yields an empty key
list with no error. -/
theorem claimC4_pubkey_section (line : List Char) (rest : List (List Char))
    (r : UserInfoResult) (hne : goTrimSpace line ≠ []) :
    (ParseUserInfo "Username: alice\nPublic keys:" = Except.ok ⟨"alice", false, []⟩
     ∧ ParseUserInfo "Username: alice\nPublic keys:\nAdmin: true"
         = Except.ok ⟨"alice", true, []⟩
     ∧ ParseUserInfo
         "Username: alice\nPublic keys:\n  ssh-ed25519 AAA a@h\n  ssh-rsa BBB b@h\nAdmin: true"
         = Except.ok ⟨"alice", true, ["ssh-ed25519 AAA a@h", "ssh-rsa BBB b@h"]⟩)
    ∧ (¬(startsWithChars twoSpaces line = false ∧ containsChars line colonSpace) →
        userLoop (line :: rest) true r
          = userLoop rest true { r with PublicKeys := r.PublicKeys ++ [String.mk (goTrimSpace line)] })
    ∧ ((startsWithChars twoSpaces line = false ∧ containsChars line colonSpace) →
        userLoop (line :: rest) true r
          = userLoop rest (stepUserKV line r).2 (stepUserKV line r).1) := by
  refine ⟨⟨by decide, by decide, by decide⟩, ?_, ?_⟩
  · intro h
    simp [userLoop, hne, h]
  · intro h
    simp [userLoop, hne, h]

/-- C4 witness: collecting the indented line with trailing whitespace
inside a section appends its trimmed form to the keys. -/
theorem claimC4_witness :
    userLoop [("  k ").data] true ⟨"a", false, []⟩ = userLoop [] true ⟨"a", false, ["k"]⟩ :=
  (claimC4_pubkey_section ("  k ").data [] ⟨"a", false, []⟩ (by decide)).2.1 (by decide)

/-- C10: while collecting public keys the section ends only at a line that
both lacks the two-space indentation and contains the colon-space
separator; an indented non-empty line containing colon-space is collected
as a key rather than ending the section, and every collected key is stored
with surrounding whitespace, indentation included, stripped. -/
theorem claimC10_pubkey_section_end (line : List Char) (rest : List (List Char))
    (r : UserInfoResult) (hne : goTrimSpace line ≠ []) :
    (ParseUserInfo "Username: a\nPublic keys:\n  Foo: bar\nAdmin: true"
        = Except.ok ⟨"a", true, ["Foo: bar"]⟩
     ∧ startsWithChars twoSpaces ("  Foo: bar").data = true
     ∧ containsChars ("  Foo: bar").data colonSpace = true
     ∧ goTrimSpace ("  Foo: bar").data = ("Foo: bar").data)
    ∧ (startsWithChars twoSpaces line = true ∨ containsChars line colonSpace = false →
        userLoop (line :: rest) true r
          = userLoop rest true { r with PublicKeys := r.PublicKeys ++ [String.mk (goTrimSpace line)] }) := by
  refine ⟨⟨by decide, by decide, by decide, by decide⟩, ?_⟩
  intro h
  have hcond : ¬(startsWithChars twoSpaces line = false ∧ containsChars line colonSpace) := by
    rcases h with h | h
    · intro hc
      rw [h] at hc
      exact Bool.true_eq_false.mp hc.1
    · intro hc
      rw [h] at hc
      exact Bool.false_ne_true hc.2
  simp [userLoop, hne, hcond]

/-- C10 witness: the indented line containing colon-space is collected,
trimmed, and the loop stays in the section. -/
theorem claimC10_witness :
    userLoop [("  Foo: bar").data] true ⟨"a", false, []⟩
      = userLoop [] true ⟨"a", false, ["Foo: bar"]⟩ :=
  (claimC10_pubkey_section_end ("  Foo: bar").data [] ⟨"a", false, []⟩ (by decide)).2
    (Or.inl (by decide))

theorem signerStepRun_spec (w : AuthWorld) (cfg : ClientConfig) :
    (cfg.PrivateKey = "" ∧ cfg.PrivateKeyPath = "" ∧ signerStepRun w cfg = (Except.ok none, []))
    ∨ (∃ e evs, signerStepRun w cfg = (Except.error e, evs) ∧ e ≠ NewClientErr.noAuth
        ∧ ¬(cfg.PrivateKey = "" ∧ cfg.PrivateKeyPath = ""))
    ∨ (∃ s evs, signerStepRun w cfg = (Except.ok (some s), evs)
        ∧ ¬(cfg.PrivateKey = "" ∧ cfg.PrivateKeyPath = "")) := by
  by_cases hk : cfg.PrivateKey = ""
  · by_cases hp : cfg.PrivateKeyPath = ""
    · exact Or.inl ⟨hk, hp, by simp [signerStepRun, hk, hp]⟩
    · cases hrf : w.readFile cfg.PrivateKeyPath with
      | none =>
        exact Or.inr (Or.inl ⟨NewClientErr.readKeyFile cfg.PrivateKeyPath,
          [ReadEvent.keyFile cfg.PrivateKeyPath],
          by simp [signerStepRun, hk, hp, hrf], by simp, fun hb => hp hb.2⟩)
      | some bytes =>
        cases hpk : w.parsePrivateKey bytes with
        | none =>
          exact Or.inr (Or.inl ⟨NewClientErr.parseKeyFile cfg.PrivateKeyPath,
            [ReadEvent.keyFile cfg.PrivateKeyPath],
            by simp [signerStepRun, hk, hp, hrf, hpk], by simp, fun hb => hp hb.2⟩)
        | some s =>
          exact Or.inr (Or.inr ⟨s, [ReadEvent.keyFile cfg.PrivateKeyPath],
            by simp [signerStepRun, hk, hp, hrf, hpk], fun hb => hp hb.2⟩)
  · cases hpk : w.parsePrivateKey cfg.PrivateKey with
    | none =>
      exact Or.inr (Or.inl ⟨NewClientErr.parseInlineKey, [],
        by simp [signerStepRun, hk, hpk], by simp, fun hb => hk hb.1⟩)
    | some s =>
      exact Or.inr (Or.inr ⟨s, [], by simp [signerStepRun, hk, hpk], fun hb => hk hb.1⟩)

theorem agentStepRun_spec (w : AuthWorld) (cfg : ClientConfig) :
    (¬(cfg.UseAgent ∧ w.sshAuthSock ≠ "" ∧ w.dialOk)
      ∧ agentStepRun w cfg = (Except.ok none, []))
    ∨ ((cfg.UseAgent ∧ w.sshAuthSock ≠ "" ∧ w.dialOk)
      ∧ ((∃ e evs, agentStepRun w cfg = (Except.error e, evs) ∧ e ≠ NewClientErr.noAuth)
         ∨ (∃ a evs, agentStepRun w cfg = (Except.ok (some a), evs)))) := by
  by_cases hag : cfg.UseAgent ∧ w.sshAuthSock ≠ "" ∧ w.dialOk
  · refine Or.inr ⟨hag, ?_⟩
    by_cases hid : cfg.IdentityFile ≠ ""
    · cases hfa : filteredAgentAuth w cfg.IdentityFile with
      | none =>
        exact Or.inl ⟨NewClientErr.identityFilter cfg.IdentityFile,
          [ReadEvent.identityFile cfg.IdentityFile],
          by simp [agentStepRun, hag, hid, hfa], by simp⟩
      | some a =>
        exact Or.inr ⟨a, [ReadEvent.identityFile cfg.IdentityFile],
          by simp [agentStepRun, hag, hid, hfa]⟩
    · exact Or.inr ⟨AgentAuth.all, [], by simp [agentStepRun, hag, hid]⟩
  · exact Or.inl ⟨hag, by simp [agentStepRun, hag]⟩

theorem signerStepRun_trace_inline (w : AuthWorld) (cfg : ClientConfig)
    (hk : cfg.PrivateKey ≠ "") : (signerStepRun w cfg).2 = [] := by
  cases hpk : w.parsePrivateKey cfg.PrivateKey <;> simp [signerStepRun, hk, hpk]

theorem agentStepRun_trace_no_keyfile (w : AuthWorld) (cfg : ClientConfig) :
    ∀ e ∈ (agentStepRun w cfg).2, ReadEvent.isKeyFileRead e = false := by
  intro e he
  by_cases hag : cfg.UseAgent ∧ w.sshAuthSock ≠ "" ∧ w.dialOk
  · by_cases hid : cfg.IdentityFile ≠ ""
    · cases hfa : filteredAgentAuth w cfg.IdentityFile <;>
        · simp only [agentStepRun, if_pos hag, if_pos hid, hfa] at he
          simp only [List.mem_singleton] at he
          subst he
          rfl
    · simp [agentStepRun, hag, hid] at he
  · simp [agentStepRun, hag] at he

theorem newClientRun_trace_sub (w : AuthWorld) (cfg : ClientConfig) :
    ∀ e ∈ (NewClientRun w cfg).2,
      e ∈ (signerStepRun w cfg).2 ∨ e ∈ (agentStepRun w cfg).2 := by
  intro e he
  unfold NewClientRun at he
  rcases hs : signerStepRun w cfg with ⟨rs, evs⟩
  rw [hs] at he
  cases rs with
  | error er => exact Or.inl he
  | ok signer =>
    rcases ha : agentStepRun w cfg with ⟨ra, evs2⟩
    rw [ha] at he
    cases ra with
    | error er =>
      have he2 : e ∈ evs ++ evs2 := he
      rcases List.mem_append.mp he2 with h | h
      · exact Or.inl h
      · exact Or.inr h
    | ok agentAuth =>
      have he2 : e ∈ evs ++ evs2 := by
        by_cases hc : signer = none ∧ agentAuth = none
        · simpa [hc] using he
        · simpa [hc] using he
      rcases List.mem_append.mp he2 with h | h
      · exact Or.inl h
      · exact Or.inr h

/-- C6: NewClient resolves authentication with inline key content taking
priority over the key file path (a non-empty inline key means the key file
branch never reads its file, and a successfully parsed inline key becomes
the signer), the agent method is filtered to the identity-file key when
one is given, and construction fails with the no-authentication-method
error exactly when no key material is configured and the agent is
unavailable (not requested, socket unset, or dial failed). -/
theorem claimC6_auth_resolution (w : AuthWorld) (cfg : ClientConfig) :
    ((NewClientRun w cfg).1 = Except.error NewClientErr.noAuth ↔
      (cfg.PrivateKey = "" ∧ cfg.PrivateKeyPath = ""
        ∧ ¬(cfg.UseAgent ∧ w.sshAuthSock ≠ "" ∧ w.dialOk)))
    ∧ (cfg.PrivateKey ≠ "" →
        ∀ e ∈ (NewClientRun w cfg).2, ReadEvent.isKeyFileRead e = false)
    ∧ (∀ s c, cfg.PrivateKey ≠ "" → w.parsePrivateKey cfg.PrivateKey = some s →
        (NewClientRun w cfg).1 = Except.ok c → c.signer = some s)
    ∧ (∀ a c, (cfg.UseAgent ∧ w.sshAuthSock ≠ "" ∧ w.dialOk) → cfg.IdentityFile ≠ "" →
        filteredAgentAuth w cfg.IdentityFile = some a →
        (NewClientRun w cfg).1 = Except.ok c → c.agentAuth = some a) := by
  refine ⟨?_, ?_, ?_, ?_⟩
  · rcases signerStepRun_spec w cfg with ⟨hk, hp, hs⟩ | ⟨e, evs, hs, hne, hno⟩ | ⟨s, evs, hs, hno⟩
    · rcases agentStepRun_spec w cfg with ⟨hag, ha⟩ | ⟨hag, ⟨e, evs2, ha, hne⟩ | ⟨a, evs2, ha⟩⟩
      · simp only [NewClientRun, hs, ha]
        simp [hk, hp, hag]
      · have hR : ¬(cfg.PrivateKey = "" ∧ cfg.PrivateKeyPath = ""
            ∧ ¬(cfg.UseAgent ∧ w.sshAuthSock ≠ "" ∧ w.dialOk)) := fun h => h.2.2 hag
        simp only [NewClientRun, hs, ha]
        simp [hne]
        intro h1 h2
        by_contra hq
        exact hR ⟨h1, h2, hq⟩
      · have hR : ¬(cfg.PrivateKey = "" ∧ cfg.PrivateKeyPath = ""
            ∧ ¬(cfg.UseAgent ∧ w.sshAuthSock ≠ "" ∧ w.dialOk)) := fun h => h.2.2 hag
        simp only [NewClientRun, hs, ha]
        simp
        intro h1 h2
        by_contra hq
        exact hR ⟨h1, h2, hq⟩
    · have hR : ¬(cfg.PrivateKey = "" ∧ cfg.PrivateKeyPath = ""
          ∧ ¬(cfg.UseAgent ∧ w.sshAuthSock ≠ "" ∧ w.dialOk)) := fun h => hno ⟨h.1, h.2.1⟩
      simp only [NewClientRun, hs]
      simp [hne]
      intro h1 h2
      by_contra hq
      exact hR ⟨h1, h2, hq⟩
    · have hR : ¬(cfg.PrivateKey = "" ∧ cfg.PrivateKeyPath = ""
          ∧ ¬(cfg.UseAgent ∧ w.sshAuthSock ≠ "" ∧ w.dialOk)) := fun h => hno ⟨h.1, h.2.1⟩
      rcases agentStepRun_spec w cfg with ⟨hag, ha⟩ | ⟨hag, ⟨e, evs2, ha, hne⟩ | ⟨a, evs2, ha⟩⟩
      · simp only [NewClientRun, hs, ha]
        simp
        intro h1 h2
        by_contra hq
        exact hR ⟨h1, h2, hq⟩
      · simp only [NewClientRun, hs, ha]
        simp [hne]
        intro h1 h2
        by_contra hq
        exact hR ⟨h1, h2, hq⟩
      · simp only [NewClientRun, hs, ha]
        simp
        intro h1 h2
        by_contra hq
        exact hR ⟨h1, h2, hq⟩
  · intro hk e he
    rcases newClientRun_trace_sub w cfg e he with h | h
    · rw [signerStepRun_trace_inline w cfg hk] at h
      cases h
    · exact agentStepRun_trace_no_keyfile w cfg e h
  · intro s c hk hpk hok
    have hs : signerStepRun w cfg = (Except.ok (some s), []) := by
      simp [signerStepRun, hk, hpk]
    rcases agentStepRun_spec w cfg with ⟨hag, ha⟩ | ⟨hag, ⟨e, evs2, ha, hne⟩ | ⟨a, evs2, ha⟩⟩
    · simp only [NewClientRun, hs, ha] at hok
      simp at hok
      subst hok
      rfl
    · simp only [NewClientRun, hs, ha] at hok
      exact absurd hok (by simp)
    · simp only [NewClientRun, hs, ha] at hok
      simp at hok
      subst hok
      rfl
  · intro a c hag hid hfa hok
    have ha : agentStepRun w cfg
        = (Except.ok (some a), [ReadEvent.identityFile cfg.IdentityFile]) := by
      simp [agentStepRun, hag, hid, hfa]
    rcases signerStepRun_spec w cfg with ⟨hk, hp, hs⟩ | ⟨e, evs, hs, hne, hno⟩ | ⟨s, evs, hs, hno⟩
    · simp only [NewClientRun, hs, ha] at hok
      simp at hok
      subst hok
      rfl
    · simp only [NewClientRun, hs, ha] at hok
      exact absurd hok (by simp)
    · simp only [NewClientRun, hs, ha] at hok
      simp at hok
      subst hok
      rfl

/-- C6 witness: a configuration with inline key content, an agent with an
identity file, and a world where all steps succeed resolves the signer
from the inline content and the agent method to the filtered key, touches
no key file, and does not fail with the no-authentication error. -/
theorem claimC6_witness :
    ClientModel.signer ⟨some "SIG", some (AgentAuth.filtered "WANT")⟩ = some "SIG"
    ∧ ClientModel.agentAuth ⟨some "SIG", some (AgentAuth.filtered "WANT")⟩
        = some (AgentAuth.filtered "WANT") :=
  ⟨(claimC6_auth_resolution
      ⟨fun s => if s = "KEY" then some "SIG" else none,
       fun p => if p = "idf" then some "PUB" else none,
       "sock", true,
       fun b => if b = "PUB" then some "WANT" else none⟩
      ⟨"KEY", "path", true, "idf"⟩).2.2.1 "SIG" ⟨some "SIG", some (AgentAuth.filtered "WANT")⟩
      (by decide) rfl rfl,
   (claimC6_auth_resolution
      ⟨fun s => if s = "KEY" then some "SIG" else none,
       fun p => if p = "idf" then some "PUB" else none,
       "sock", true,
       fun b => if b = "PUB" then some "WANT" else none⟩
      ⟨"KEY", "path", true, "idf"⟩).2.2.2 (AgentAuth.filtered "WANT")
      ⟨some "SIG", some (AgentAuth.filtered "WANT")⟩
      (by exact ⟨rfl, by decide, rfl⟩) (by decide) rfl rfl⟩

/-- C7: on a successful listing, readCollabState reports not-found exactly
when the username is absent from the parsed entries; a listing failure is
reported as a listing error, never as not-found; and when the first entry
for the username carries an empty access level the resulting state uses
read-write. -/
theorem claimC7_collab_read (username msg : String) (entries : List CollabEntry) :
    (readCollabState username (Except.ok entries) = CollabReadResult.notFound ↔
      username ∉ entries.map CollabEntry.Username)
    ∧ readCollabState username (Except.error msg) = CollabReadResult.listError
    ∧ readCollabState username (Except.error msg) ≠ CollabReadResult.notFound
    ∧ (∀ c, entries.find? (fun c => c.Username = username) = some c →
        c.AccessLevel = "" →
        readCollabState username (Except.ok entries) = CollabReadResult.found "read-write") := by
  refine ⟨?_, rfl, by simp [readCollabState], ?_⟩
  · unfold readCollabState
    cases hf : entries.find? (fun c => c.Username = username) with
    | none =>
      simp only [hf]
      rw [List.find?_eq_none] at hf
      simp only [List.mem_map]
      constructor
      · rintro - ⟨c, hc, hu⟩
        exact hf c hc (by simp [hu])
      · intro _
        trivial
    | some c =>
      have hmem := List.mem_of_find?_eq_some hf
      have hpred := List.find?_some hf
      simp only [decide_eq_true_eq] at hpred
      simp only [hf, List.mem_map]
      constructor
      · intro hc
        cases hc
      · intro habs
        exact absurd ⟨c, hmem, hpred⟩ habs
  · intro c hf hempty
    simp [readCollabState, hf, hempty]

/-- C7 witness: a successful listing with a single entry for alice whose
access level is empty yields the read-write state, and a transport failure
yields the listing error. -/
theorem claimC7_witness :
    readCollabState "alice" (Except.ok [⟨"alice", ""⟩]) = CollabReadResult.found "read-write"
    ∧ readCollabState "alice" (Except.error "dial failed") = CollabReadResult.listError :=
  ⟨(claimC7_collab_read "alice" "dial failed" [⟨"alice", ""⟩]).2.2.2 ⟨"alice", ""⟩
      (by decide) (by decide),
   (claimC7_collab_read "alice" "dial failed" [⟨"alice", ""⟩]).2.1⟩

theorem trimLeftChars_eq_nil_iff (l : List Char) :
    trimLeftChars l = [] ↔ ∀ c ∈ l, goIsSpace c = true := by
  induction l with
  | nil => simp [trimLeftChars]
  | cons c cs ih =>
    by_cases h : goIsSpace c = true
    · simp [trimLeftChars, h, ih]
    · simp [trimLeftChars, h]

theorem mem_trimLeftChars_of_not_space (l : List Char) (c : Char)
    (hc : c ∈ l) (hsp : goIsSpace c = false) : c ∈ trimLeftChars l := by
  induction l with
  | nil => cases hc
  | cons d ds ih =>
    by_cases hd : goIsSpace d = true
    · rcases List.mem_cons.mp hc with rfl | hm
      · rw [hd] at hsp
        cases hsp
      · simpa [trimLeftChars, hd] using ih hm
    · unfold trimLeftChars
      rw [if_neg hd]
      exact hc

theorem mem_of_mem_trimLeftChars (l : List Char) (c : Char)
    (hc : c ∈ trimLeftChars l) : c ∈ l := by
  induction l with
  | nil => exact hc
  | cons d ds ih =>
    by_cases hd : goIsSpace d = true
    · simp only [trimLeftChars, if_pos hd] at hc
      exact List.mem_cons_of_mem d (ih hc)
    · rw [show trimLeftChars (d :: ds) = d :: ds from by unfold trimLeftChars; rw [if_neg hd]] at hc
      exact hc

theorem goTrimSpace_eq_nil_iff (l : List Char) :
    goTrimSpace l = [] ↔ ∀ c ∈ l, goIsSpace c = true := by
  unfold goTrimSpace trimRightChars
  rw [trimLeftChars_eq_nil_iff]
  constructor
  · intro h c hc
    by_cases hsp : goIsSpace c = true
    · exact hsp
    · have h1 : c ∈ trimLeftChars l.reverse :=
        mem_trimLeftChars_of_not_space l.reverse c (List.mem_reverse.mpr hc)
          (Bool.not_eq_true _ ▸ (by simpa using hsp))
      exact absurd (h c (List.mem_reverse.mpr h1)) hsp
  · intro h c hc
    have h1 : c ∈ trimLeftChars l.reverse := List.mem_reverse.mp hc
    exact h c (List.mem_reverse.mp (mem_of_mem_trimLeftChars l.reverse c h1))

theorem fieldsAux_ne_nil (l : List Char) : ∀ cur, cur ≠ [] → fieldsAux l cur ≠ [] := by
  induction l with
  | nil => intro cur h; simpa [fieldsAux] using h
  | cons c cs ih =>
    intro cur h
    by_cases hsp : goIsSpace c = true
    · simp [fieldsAux, hsp, h]
    · exact by simpa [fieldsAux, hsp] using ih (c :: cur) (by simp)

theorem goFields_eq_nil_iff (l : List Char) :
    goFields l = [] ↔ ∀ c ∈ l, goIsSpace c = true := by
  unfold goFields
  induction l with
  | nil => simp [fieldsAux]
  | cons c cs ih =>
    by_cases hsp : goIsSpace c = true
    · simp [fieldsAux, hsp, ih]
    · simp only [fieldsAux, if_neg hsp]
      constructor
      · intro h
        exact absurd h (fieldsAux_ne_nil cs [c] (by simp))
      · intro h
        exact absurd (h c (List.mem_cons_self c cs)) hsp

theorem fieldsAux_all_space (sp : List Char) (hsp : ∀ c ∈ sp, goIsSpace c = true) :
    ∀ cur, fieldsAux sp cur = fieldsAux [] cur := by
  induction sp with
  | nil => intro cur; rfl
  | cons d ds ih =>
    intro cur
    have hd : goIsSpace d = true := hsp d (List.mem_cons_self d ds)
    have hds : ∀ c ∈ ds, goIsSpace c = true := fun c hc => hsp c (List.mem_cons_of_mem d hc)
    by_cases hc : cur = []
    · simp [fieldsAux, hd, hc, ih hds]
    · simp [fieldsAux, hd, hc, ih hds]

theorem fieldsAux_append_space (l sp : List Char) (hsp : ∀ c ∈ sp, goIsSpace c = true) :
    ∀ cur, fieldsAux (l ++ sp) cur = fieldsAux l cur := by
  induction l with
  | nil =>
    intro cur
    simpa [fieldsAux] using fieldsAux_all_space sp hsp cur
  | cons c cs ih =>
    intro cur
    by_cases hc : goIsSpace c = true
    · by_cases hcur : cur = []
      · simp [fieldsAux, hc, hcur, ih]
      · simp [fieldsAux, hc, hcur, ih]
    · simp [fieldsAux, hc, ih]

theorem trimLeftChars_decomp (l : List Char) :
    ∃ sp, l = sp ++ trimLeftChars l ∧ ∀ c ∈ sp, goIsSpace c = true := by
  induction l with
  | nil => exact ⟨[], rfl, by simp⟩
  | cons c cs ih =>
    by_cases h : goIsSpace c = true
    · rcases ih with ⟨sp, heq, hall⟩
      refine ⟨c :: sp, ?_, ?_⟩
      · simp [trimLeftChars, h]
        exact heq
      · intro d hd
        rcases List.mem_cons.mp hd with rfl | hm
        · exact h
        · exact hall d hm
    · exact ⟨[], by simp [trimLeftChars, h], by simp⟩

theorem fieldsAux_trimLeft (l : List Char) :
    fieldsAux (trimLeftChars l) [] = fieldsAux l [] := by
  induction l with
  | nil => rfl
  | cons c cs ih =>
    by_cases h : goIsSpace c = true
    · simpa [trimLeftChars, fieldsAux, h] using ih
    · simp [trimLeftChars, h]

theorem goFields_goTrimSpace (l : List Char) :
    goFields (goTrimSpace l) = goFields l := by
  unfold goFields goTrimSpace
  rw [fieldsAux_trimLeft]
  rcases trimLeftChars_decomp l.reverse with ⟨sp, heq, hall⟩
  have hrev : l = trimRightChars l ++ sp.reverse := by
    unfold trimRightChars
    have := congrArg List.reverse heq
    simpa [List.reverse_append] using this
  have hallr : ∀ c ∈ sp.reverse, goIsSpace c = true := fun c hc =>
    hall c (List.mem_reverse.mp hc)
  calc fieldsAux (trimRightChars l) []
      = fieldsAux (trimRightChars l ++ sp.reverse) [] :=
        (fieldsAux_append_space (trimRightChars l) sp.reverse hallr []).symm
    _ = fieldsAux l [] := by rw [← hrev]

theorem mem_splitCharAux_subset (sep : Char) (s : List Char) :
    ∀ cur ln, ln ∈ splitCharAux sep s cur → ∀ c ∈ ln, c ∈ s ∨ c ∈ cur := by
  induction s with
  | nil =>
    intro cur ln hln c hc
    simp only [splitCharAux, List.mem_singleton] at hln
    subst hln
    exact Or.inr (List.mem_reverse.mp hc)
  | cons d ds ih =>
    intro cur ln hln c hc
    by_cases hd : d = sep
    · simp only [splitCharAux, if_pos hd] at hln
      rcases List.mem_cons.mp hln with rfl | hm
      · exact Or.inr (List.mem_reverse.mp hc)
      · rcases ih [] ln hm c hc with h | h
        · exact Or.inl (List.mem_cons_of_mem d h)
        · cases h
    · simp only [splitCharAux, if_neg hd] at hln
      rcases ih (d :: cur) ln hln c hc with h | h
      · exact Or.inl (List.mem_cons_of_mem d h)
      · rcases List.mem_cons.mp h with rfl | hm
        · exact Or.inl (List.mem_cons_self c ds)
        · exact Or.inr hm

/-- C9: ParseCollabList never returns an error: it returns the list with
one entry per line whose tokenization is non-empty, the first whitespace
token as the username and the second, when present, as the access level
(empty otherwise); a line is skipped exactly when it is empty after
trimming, which coincides with having no tokens, and the two boundary
inputs give the empty list and the single entry with empty access
level. -/
theorem claimC9_collab_list_total (s : String) :
    ParseCollabList s =
      Except.ok ((goSplitLines s.data).filterMap fun ln =>
        match goFields ln with
        | [] => none
        | u :: rest => some ⟨String.mk u, String.mk (rest.headD [])⟩)
    ∧ (∀ ln : List Char, (goTrimSpace ln = [] ↔ goFields ln = []))
    ∧ ParseCollabList "" = Except.ok []
    ∧ ParseCollabList "alice" = Except.ok [⟨"alice", ""⟩] := by
  have hiff : ∀ ln : List Char, (goTrimSpace ln = [] ↔ goFields ln = []) := by
    intro ln
    rw [goTrimSpace_eq_nil_iff, goFields_eq_nil_iff]
  refine ⟨?_, hiff, by decide, by decide⟩
  unfold ParseCollabList
  by_cases hempty : goTrimSpace s.data = []
  · rw [if_pos hempty]
    have hall : ∀ c ∈ s.data, goIsSpace c = true := (goTrimSpace_eq_nil_iff s.data).mp hempty
    have : ∀ ln ∈ goSplitLines s.data,
        (match goFields ln with
         | [] => none
         | u :: rest => some (⟨String.mk u, String.mk (rest.headD [])⟩ : CollabEntry)) = none := by
      intro ln hln
      have hlnsp : ∀ c ∈ ln, goIsSpace c = true := by
        intro c hc
        rcases mem_splitCharAux_subset (Char.ofNat 10) s.data [] ln hln c hc with h | h
        · exact hall c h
        · cases h
      rw [show goFields ln = [] from (goFields_eq_nil_iff ln).mpr hlnsp]
    rw [List.filterMap_eq_nil_iff.mpr this]
  · rw [if_neg hempty]
    congr 1
    apply List.filterMap_congr
    intro ln _
    unfold collabLineEntry
    by_cases hln : goTrimSpace ln = []
    · rw [if_pos hln, show goFields ln = [] from (hiff ln).mp hln]
    · rw [if_neg hln, ← goFields_goTrimSpace ln]

end SoftServe
